import Mathlib

/-!
# The array view `core::span`, `core::size` and the ADC helpers `core::adc`

A shallow embedding of `lib/core/span.hpp`, of the `size` helpers of
`lib/core/types.hpp` and of `lib/core/utils/adc.hpp`, followed by the
properties proved about them.

Modelling conventions
* A pointer `T*` is an integer address counted in elements of `T`, so the
  C++ expression `p + n` is integer addition and `nullptr` is address `0`.
* `core::size_t` is a `w`-bit unsigned integer; the width `w` is a parameter
  (16 on AVR, 64 on the native test target). Values are natural numbers and
  every operation of the source that can wrap is reduced modulo `2 ^ w`.
* A reference `T&` is modelled by the address of the element it denotes; the
  element itself is obtained by reading a memory `Mem α` at that address.
* A `float` is an IEEE 754 binary32 value, modelled by the rational number it
  denotes; every `float` operation is the exact operation followed by rounding
  to nearest, ties to even.
-/

namespace core

/-! ## Machine model -/

/-- Address of an element, counted in elements of the pointed-to type. -/
abbrev Ptr := Int

/-- The null address. -/
def nullptr : Ptr := 0

/-- Memory holding elements of type `α`, read by address. -/
abbrev Mem (α : Type) := Ptr → α

/-- Read the element a reference denotes. -/
def deref {α : Type} (m : Mem α) (ref : Ptr) : α := m ref

/-- Conversion `static_cast<core::size_t>(x)` of a mathematical integer to a
`w`-bit unsigned integer, also the result of unsigned arithmetic on `w` bits. -/
def size_t_cast (w : Nat) (x : Int) : Nat := (x % 2 ^ w).toNat

/-- Pointer difference `a - b` (a `ptrdiff_t`). -/
def ptr_diff (a b : Ptr) : Int := a - b

/-- A C array `T array[N]`: the address of its first element and its declared
number of elements. -/
structure CArray where
  addr : Ptr
  N : Nat
deriving DecidableEq, Repr

/-! ## `lib/core/types.hpp` -/

/-- Array overload of `core::size`: `size(const T (&)[Size])` returns `Size`. -/
def size_array (array : CArray) : Nat := array.N

/-! ## `lib/core/span.hpp` -/

/-- Constant `dynamic_extent = static_cast<core::size_t>(-1)`. -/
def dynamic_extent (w : Nat) : Nat := size_t_cast w (-1)

/-- Class `span<T>`: the private members `ptr_` and `size_`. -/
structure span where
  ptr_ : Ptr
  size_ : Nat
deriving DecidableEq, Repr

namespace span

/-- Default constructor `span()`. -/
def ctor_default : span := { ptr_ := nullptr, size_ := 0 }

/-- Defaulted copy constructor `span(const span& other)`: member-wise copy. -/
def ctor_copy (other : span) : span := { ptr_ := other.ptr_, size_ := other.size_ }

/-- Defaulted copy assignment `operator=(const span& other)`: the new value of
`*this` after member-wise assignment. -/
def operator_assign (self other : span) : span :=
  { self with ptr_ := other.ptr_, size_ := other.size_ }

/-- Constructor `span(T* ptr, size_type count)`. -/
def ctor_ptr_count (ptr : Ptr) (count : Nat) : span := { ptr_ := ptr, size_ := count }

/-- Constructor `span(T (&array)[N])`: the array decays to the address of its
first element and `N` is the declared size. -/
def ctor_array (array : CArray) : span := { ptr_ := array.addr, size_ := array.N }

/-- Member `begin()`. -/
def begin (s : span) : Ptr := s.ptr_

/-- Member `end()`. -/
def end_ (s : span) : Ptr := s.ptr_ + s.size_

/-- Member `cbegin()`. -/
def cbegin (s : span) : Ptr := s.ptr_

/-- Member `cend()`. -/
def cend (s : span) : Ptr := s.ptr_ + s.size_

/-- Member `front()`: the reference `ptr_[0]`. -/
def front (s : span) : Ptr := s.ptr_ + 0

/-- Member `back()`: the reference `ptr_[size_ - 1]`, the index computed in
`size_type`. -/
def back (w : Nat) (s : span) : Ptr := s.ptr_ + size_t_cast w ((s.size_ : Int) - 1)

/-- Member `operator[](size_type index)`: the reference `ptr_[index]`. -/
def subscript (s : span) (index : Nat) : Ptr := s.ptr_ + index

/-- Member `data()`. -/
def data (s : span) : Ptr := s.ptr_

/-- Member `size()`. -/
def size (s : span) : Nat := s.size_

/-- Member `size_bytes()`: `size_ * sizeof(T)` in `size_type`. -/
def size_bytes (w sizeofT : Nat) (s : span) : Nat :=
  size_t_cast w ((s.size_ : Int) * sizeofT)

/-- Member `empty()`. -/
def empty (s : span) : Bool := s.size_ == 0

/-- Member `first(size_type count)`. -/
def first (s : span) (count : Nat) : span := ctor_ptr_count s.ptr_ count

/-- Member `last(size_type count)`: `span(ptr_ + size_ - count, count)`. -/
def last (s : span) (count : Nat) : span :=
  ctor_ptr_count (s.ptr_ + s.size_ - count) count

/-- Member `subspan(size_type offset, size_type count)`. -/
def subspan (w : Nat) (s : span) (offset count : Nat) : span :=
  ctor_ptr_count (s.ptr_ + offset)
    (if count ≠ dynamic_extent w then count else size_t_cast w ((s.size_ : Int) - offset))

/-- Call `subspan(offset)`: the count takes its default `dynamic_extent`. -/
def subspan_default (w : Nat) (s : span) (offset : Nat) : span :=
  subspan w s offset (dynamic_extent w)

end span

/-- Container overload of `core::size`, at a view: `size(c)` returns `c.size()`. -/
def size (c : span) : Nat := c.size

/-! ## Programs over views -/

/-- The loop `for (; it != last; ++it)` that a range-based `for` over a view
expands to, run for at most `fuel` steps of the iterator. The result is the
list of addresses the loop body is run at, in order, or `none` when the fuel
is used up before `it` equals `last`. -/
def iterate : Nat → Ptr → Ptr → Option (List Ptr)
  | 0, it, last => if it = last then some [] else none
  | fuel + 1, it, last =>
    if it = last then some [] else (iterate fuel (it + 1) last).map (List.cons it)

/-- Range-based `for (auto& value : s)`: `iterate` from `s.begin()` to `s.end()`. -/
def range_for (fuel : Nat) (s : span) : Option (List Ptr) :=
  iterate fuel s.begin s.end_

/-- The elements seen through a view, in index order: `s[0], ..., s[size() - 1]`
read from memory `m`. -/
def span.elements {α : Type} (m : Mem α) (s : span) : List α :=
  (List.range s.size).map (fun i => deref m (s.subscript i))

/-- The variables of type `span<T>` of a program, by number. -/
abbrev Env := Nat → span

/-- Declaration `span<T> copy(original);` in environment `env`. -/
def Env.copy_construct (env : Env) (copy original : Nat) : Env :=
  Function.update env copy (span.ctor_copy (env original))

/-- Statement `target = original;` in environment `env`. -/
def Env.copy_assign (env : Env) (target original : Nat) : Env :=
  Function.update env target (span.operator_assign (env target) (env original))

/-- The test fixture array `int m_array[5] { 1, 2, 3, 4, 5 }`, placed at
address `base`. -/
def m_array (base : Ptr) : CArray := { addr := base, N := 5 }

/-- A memory holding the contents of `m_array` at `base` and `0` elsewhere. -/
def m_array_mem (base : Ptr) : Mem Int :=
  fun p => if base ≤ p ∧ p < base + 5 then [1, 2, 3, 4, 5].getD (p - base).toNat 0 else 0

/-- Assignment `ref = x` through a reference of type `T&`: the memory after
the store. -/
def store {α : Type} (m : Mem α) (ref : Ptr) (x : α) : Mem α := Function.update m ref x

/-- A program state: the view variables and the memory they point into. -/
structure State (α : Type) where
  env : Env
  mem : Mem α

/-- Statement `view[i] = x;` -/
def State.assign_subscript {α : Type} (st : State α) (view i : Nat) (x : α) : State α :=
  { st with mem := store st.mem ((st.env view).subscript i) x }

/-- Statement `view.front() = x;` -/
def State.assign_front {α : Type} (st : State α) (view : Nat) (x : α) : State α :=
  { st with mem := store st.mem (st.env view).front x }

/-- Statement `view.back() = x;` -/
def State.assign_back {α : Type} (w : Nat) (st : State α) (view : Nat) (x : α) : State α :=
  { st with mem := store st.mem ((st.env view).back w) x }

/-- Statement `*view.data() = x;` -/
def State.assign_data {α : Type} (st : State α) (view : Nat) (x : α) : State α :=
  { st with mem := store st.mem (st.env view).data x }

/-! ## Library behaviour used by `lib/core/utils/adc.hpp`

The type `float` is IEEE 754 binary32 with rounding to nearest, ties to even. A
`float` value is modelled by the rational number it denotes. Only finite values
occur (every value below is less than `2 ^ 19`), so overflow to infinity is not
modelled. The `printf` family is the one of the C library.
-/

namespace adc

/-- Nearest integer to `x`, a tie going to the even neighbour. -/
def round_half_even (x : ℚ) : Int :=
  if x - ⌊x⌋ < 1 / 2 then ⌊x⌋
  else if 1 / 2 < x - ⌊x⌋ then ⌊x⌋ + 1
  else if ⌊x⌋ % 2 = 0 then ⌊x⌋ else ⌊x⌋ + 1

/-- Binary32 exponent of `x`: the position of its leading binary digit, and the
minimum normal exponent `-126` for every smaller value. -/
def float_exponent (x : ℚ) : Int := max (Int.log 2 |x|) (-126)

/-- The `float` nearest to the real number `x`: 24 significant bits, so the
spacing of the values around `x` is `2 ^ (float_exponent x - 23)`. -/
def float_round (x : ℚ) : ℚ :=
  if x = 0 then 0
  else round_half_even (x / 2 ^ (float_exponent x - 23)) * 2 ^ (float_exponent x - 23)

/-- Conversion `static_cast<uint16_t>(x)` of a `float`: the fraction is
discarded (truncation toward zero) and the integer is reduced modulo `2 ^ 16`.
When the truncated value is outside `0 .. 65535` C++ leaves the result
undefined; the reduction stands for the `uint16_t` the target produces, and the
properties below use only that it is a `uint16_t` in that case. -/
def float_to_uint16 (x : ℚ) : Nat := ((if 0 ≤ x then ⌊x⌋ else ⌈x⌉) % 2 ^ 16).toNat

/-- Text printed by the conversion `%u` for the unsigned value `n`: its decimal
digits, without leading zeros. -/
def fmt_u (n : Nat) : String := Nat.repr n

/-- Text printed by the format `"%u, %u"` for the unsigned values `a` and `b`. -/
def format_u_u (a b : Nat) : String := fmt_u a ++ ", " ++ fmt_u b

/-- Call `snprintf(buffer, size, ...)` where `text` is the complete formatted
output: the buffer receives the first `size - 1` characters of `text`, followed
by the terminator, and the returned `int` is the length of the complete text. -/
def snprintf (size : Nat) (text : String) : String × Int :=
  (String.mk (text.data.take (size - 1)), (text.length : Int))

/-! ## `lib/core/utils/adc.hpp` -/

/-- Local `constexpr auto adc_range = (1 << 10) - 1`. -/
def adc_range : Nat := (1 <<< 10) - 1

/-- Local `constexpr auto adc_scale = (5000U / static_cast<float>(adc_range))`:
`5000U` is converted to `float` and the division is a `float` division. -/
def adc_scale : ℚ := float_round (float_round 5000 / float_round adc_range)

/-- Function `raw_to_mv(uint16_t raw_adc)`: `raw_adc * adc_scale`, where `raw_adc`
is converted to `float` and the product is a `float` product. -/
def raw_to_mv (raw_adc : Nat) : ℚ := float_round (float_round raw_adc * adc_scale)

/-- Constant `sizeof(buffer)` of `char buffer[16]`. -/
def buffer_size : Nat := 16

/-- The part of `to_string` after the call of `snprintf`, given its outcome
`(buffer, result)`: the test
`result < 0 || static_cast<size_t>(result) >= sizeof(buffer)` and the two
returns. -/
def check_result (w : Nat) (out : String × Int) : String :=
  if out.2 < 0 ∨ buffer_size ≤ size_t_cast w out.2 then "Err, Err" else out.1

/-- The part of `to_string` from the call of `snprintf` on, for the two values
`a` and `b` it prints. -/
def format_reading (w : Nat) (a b : Nat) : String :=
  check_result w (snprintf buffer_size (format_u_u a b))

/-- Function `to_string(ADC_raw value_raw)`. -/
def to_string (w : Nat) (value_raw : Nat) : String :=
  format_reading w value_raw (float_to_uint16 (raw_to_mv value_raw))

end adc

/-! ## Helper lemmas on `size_t` arithmetic -/

theorem size_t_cast_of_lt (w n : Nat) (h : n < 2 ^ w) : size_t_cast w (n : Int) = n := by
  unfold size_t_cast
  have h2 : ((n : Int)) % 2 ^ w = n := by
    apply Int.emod_eq_of_lt
    · exact Int.natCast_nonneg n
    · exact_mod_cast h
  rw [h2]
  exact Int.toNat_natCast n

theorem size_t_cast_sub (w a b : Nat) (ha : a < 2 ^ w) (hb : b ≤ a) :
    size_t_cast w ((a : Int) - b) = a - b := by
  have h : ((a : Int) - b) = ((a - b : Nat) : Int) := by omega
  rw [h]
  exact size_t_cast_of_lt w (a - b) (by omega)

theorem dynamic_extent_eq (w : Nat) : dynamic_extent w = 2 ^ w - 1 := by
  unfold dynamic_extent size_t_cast
  have hpos : 0 < 2 ^ w := Nat.two_pow_pos w
  have h1 : ((-1 : Int)) % 2 ^ w = ((2 ^ w - 1 : Nat) : Int) := by
    have h2 : (-1 : Int) = ((2 ^ w - 1 : Nat) : Int) + (2 ^ w : Int) * (-1) := by
      have : (((2 ^ w - 1 : Nat)) : Int) = (2 ^ w : Int) - 1 := by
        have := Nat.sub_add_cancel hpos
        push_cast [Nat.cast_sub hpos]
        ring
      rw [this]; ring
    rw [h2, Int.add_mul_emod_self_left]
    apply Int.emod_eq_of_lt
    · exact Int.natCast_nonneg _
    · have : 2 ^ w - 1 < 2 ^ w := by omega
      exact_mod_cast this
  rw [h1]
  exact Int.toNat_natCast _

theorem subspan_size_of_valid (w : Nat) (v : span) (offset count : Nat)
    (hv : v.size < 2 ^ w) (ho : offset ≤ v.size) (hc : count ≤ v.size - offset) :
    (v.subspan w offset count).size = count := by
  have hsub : size_t_cast w ((v.size_ : Int) - offset) = v.size_ - offset :=
    size_t_cast_sub w v.size_ offset hv ho
  have hd := dynamic_extent_eq w
  simp only [span.size] at hv ho hc
  simp only [span.subspan, span.ctor_ptr_count, span.size]
  split
  · rfl
  · rw [hsub]; omega

theorem subspan_default_size_of_valid (w : Nat) (v : span) (offset : Nat)
    (hv : v.size < 2 ^ w) (ho : offset ≤ v.size) :
    (v.subspan_default w offset).size = v.size - offset := by
  have hsub : size_t_cast w ((v.size_ : Int) - offset) = v.size_ - offset :=
    size_t_cast_sub w v.size_ offset hv ho
  simp only [span.subspan_default, span.subspan, span.ctor_ptr_count, span.size]
  simp [hsub]

theorem two_pow_sub_one_ne_two (w : Nat) : 2 ≠ 2 ^ w - 1 := by
  rcases w with _ | w
  · simp
  · rw [pow_succ]; omega

theorem m_array_mem_at (base : Int) (k : Nat) (hk : k < 5) :
    m_array_mem base (base + k) = [1, 2, 3, 4, 5].getD k 0 := by
  have hin : base ≤ base + k ∧ base + k < base + 5 := by omega
  have hidx : (base + (k : Int) - base).toNat = k := by omega
  simp only [m_array_mem, if_pos hin, hidx]

theorem iterate_range (k : Nat) : ∀ (fuel : Nat) (p : Int), k ≤ fuel →
    iterate fuel p (p + k) = some ((List.range k).map (fun i : Nat => p + i)) := by
  induction k with
  | zero =>
    intro fuel p _
    cases fuel <;> simp [iterate]
  | succ k ih =>
    intro fuel p hf
    obtain ⟨f, rfl⟩ : ∃ f, fuel = f + 1 := ⟨fuel - 1, by omega⟩
    have hne : ¬ (p = p + ((k + 1 : Nat) : Int)) := by omega
    have hstep : p + ((k + 1 : Nat) : Int) = (p + 1) + (k : Int) := by push_cast; ring
    simp only [iterate, if_neg hne]
    rw [hstep, ih f (p + 1) (by omega), List.range_succ_eq_map]
    simp only [Option.map_some', List.map_cons, List.map_map, Nat.cast_zero, add_zero]
    congr 2
    apply List.map_congr_left
    intro i _
    simp only [Function.comp, Nat.succ_eq_add_one]
    push_cast
    ring

theorem size_t_cast_eq_mod (w n : Nat) : size_t_cast w (n : Int) = n % 2 ^ w := by
  unfold size_t_cast
  have h : ((n : Int)) % 2 ^ w = ((n % 2 ^ w : Nat) : Int) := by push_cast; rfl
  rw [h]
  exact Int.toNat_natCast _

theorem back_eq_subscript (w : Nat) (v : span) (hpos : 0 < v.size_) (hv : v.size_ < 2 ^ w) :
    v.back w = v.subscript (v.size_ - 1) := by
  have h1 : ((v.size_ : Int) - 1) = (((v.size_ - 1 : Nat)) : Int) := by omega
  simp only [span.back, span.subscript]
  rw [h1, size_t_cast_of_lt w (v.size_ - 1) (by omega)]

/-! ## Subviews: sizes and data pointers -/

/-- Claim C1: for a view whose size is a `size_t` value and a valid pair
`offset`, `count` (`offset ≤ size`, `count ≤ size - offset`), the view
`subspan(offset, count)` has size `count` and data pointer `data() + offset`,
and `subspan(offset)` has size `size() - offset` and data pointer
`data() + offset`. -/
theorem span.subspan_size_data (w : Nat) (v : span) (offset count : Nat)
    (hv : v.size < 2 ^ w) (ho : offset ≤ v.size) (hc : count ≤ v.size - offset) :
    (v.subspan w offset count).size = count ∧
    (v.subspan w offset count).data = v.data + offset ∧
    (v.subspan_default w offset).size = v.size - offset ∧
    (v.subspan_default w offset).data = v.data + offset := by
  refine ⟨subspan_size_of_valid w v offset count hv ho hc, ?_,
    subspan_default_size_of_valid w v offset hv ho, ?_⟩
  · simp only [span.subspan, span.ctor_ptr_count, span.data]
  · simp only [span.subspan_default, span.subspan, span.ctor_ptr_count, span.data]

/-- Concrete instance: the view of 5 elements at address 100, with 16-bit
`size_t`, offset 2 and count 2. -/
theorem span.subspan_size_data_witness :
    (span.mk 100 5).size < 2 ^ 16 ∧ 2 ≤ (span.mk 100 5).size ∧
    2 ≤ (span.mk 100 5).size - 2 ∧
    ((span.mk 100 5).subspan 16 2 2).size = 2 ∧
    ((span.mk 100 5).subspan 16 2 2).data = (span.mk 100 5).data + (2 : Nat) ∧
    ((span.mk 100 5).subspan_default 16 2).size = (span.mk 100 5).size - 2 ∧
    ((span.mk 100 5).subspan_default 16 2).data = (span.mk 100 5).data + (2 : Nat) :=
  ⟨by decide, by decide, by decide,
    span.subspan_size_data 16 (span.mk 100 5) 2 2 (by decide) (by decide) (by decide)⟩

/-- Claim C2: for every view and every `n ≤ size()`, the view `last(n)` has
size `n` and data pointer `data() + (size() - n)`. -/
theorem span.last_size_data (v : span) (n : Nat) (hn : n ≤ v.size) :
    (v.last n).size = n ∧ (v.last n).data = v.data + ((v.size - n : Nat) : Int) := by
  simp only [span.size] at hn
  refine ⟨rfl, ?_⟩
  simp only [span.last, span.ctor_ptr_count, span.data, span.size]
  rw [Nat.cast_sub hn]
  ring

/-- Concrete instance: `last(1)` of the view of 5 elements at address 100. -/
theorem span.last_size_data_witness :
    1 ≤ (span.mk 100 5).size ∧ ((span.mk 100 5).last 1).size = 1 ∧
    ((span.mk 100 5).last 1).data = (span.mk 100 5).data + (((span.mk 100 5).size - 1 : Nat) : Int) :=
  ⟨by decide, span.last_size_data (span.mk 100 5) 1 (by decide)⟩

/-- Claim C3, amended: for every view and every `n ≤ size()`, the view
`first(n)` has size `n` and the data pointer of the view; in particular
`first(0)` is an empty view whose data pointer is still `data()`, so it is
null exactly when the data pointer of the view is null. -/
theorem span.first_size_data (v : span) (n : Nat) (_hn : n ≤ v.size) :
    (v.first n).size = n ∧ (v.first n).data = v.data ∧
    (v.first 0).size = 0 ∧ (v.first 0).empty = true ∧ (v.first 0).data = v.data ∧
    ((v.first 0).data = nullptr ↔ v.data = nullptr) :=
  ⟨rfl, rfl, rfl, rfl, rfl, Iff.rfl⟩

/-- Concrete instance: `first(3)` and `first(0)` of the view of 5 elements at
address 100; the data pointer of `first(0)` is 100, not null. -/
theorem span.first_size_data_witness :
    3 ≤ (span.mk 100 5).size ∧
    ((span.mk 100 5).first 3).size = 3 ∧ ((span.mk 100 5).first 3).data = 100 ∧
    ((span.mk 100 5).first 0).empty = true ∧ ((span.mk 100 5).first 0).data = 100 ∧
    ((span.mk 100 5).first 0).data ≠ nullptr :=
  have h := span.first_size_data (span.mk 100 5) 3 (by decide)
  ⟨by decide, h.1, h.2.1, h.2.2.2.1, h.2.2.2.2.1,
    fun he => absurd (h.2.2.2.2.2.1 he) (by decide)⟩

/-- Claim C3 as stated fails: the view `span(nullptr, 5)` is non-empty, `0` is
a valid count for it, and `first(0)` is an empty view whose data pointer is
the data pointer of the view, which is null. -/
theorem span.first_zero_of_null_view :
    (span.ctor_ptr_count nullptr 5).empty = false ∧
    0 ≤ (span.ctor_ptr_count nullptr 5).size ∧
    ((span.ctor_ptr_count nullptr 5).first 0).empty = true ∧
    ((span.ctor_ptr_count nullptr 5).first 0).data = (span.ctor_ptr_count nullptr 5).data ∧
    ¬ (((span.ctor_ptr_count nullptr 5).first 0).data ≠ nullptr) := by
  refine ⟨by decide, by decide, by decide, rfl, ?_⟩
  intro h
  exact h rfl

/-! ## Subviews: elements -/

/-- Claim C4: for a valid pair `offset`, `count` and every `i < count`, the
reference `subspan(offset, count)[i]` is the reference `v[offset + i]`, so both
read the same element of any memory; likewise `subspan(offset)[j]` is
`v[offset + j]` for every `j < size() - offset`. Over `m_array = [1,2,3,4,5]`
the view `subspan(2, 2)` has data pointer `base + 2` and elements `[3, 4]`, and
`last(1)` has data pointer `base + 4` and elements `[5]`. -/
theorem span.subspan_subscript {α : Type} (m : Mem α) (w : Nat) (v : span)
    (offset count i j : Nat) (base : Ptr)
    (hv : v.size < 2 ^ w) (ho : offset ≤ v.size) (hc : count ≤ v.size - offset)
    (hi : i < count) (hj : j < v.size - offset) :
    (v.subspan w offset count).subscript i = v.subscript (offset + i) ∧
    deref m ((v.subspan w offset count).subscript i) = deref m (v.subscript (offset + i)) ∧
    i < (v.subspan w offset count).size ∧ offset + i < v.size ∧
    (v.subspan_default w offset).subscript j = v.subscript (offset + j) ∧
    deref m ((v.subspan_default w offset).subscript j) = deref m (v.subscript (offset + j)) ∧
    j < (v.subspan_default w offset).size ∧ offset + j < v.size ∧
    ((span.ctor_array (m_array base)).subspan w 2 2).data = base + 2 ∧
    ((span.ctor_array (m_array base)).subspan w 2 2).size = 2 ∧
    ((span.ctor_array (m_array base)).subspan w 2 2).elements (m_array_mem base) = [3, 4] ∧
    ((span.ctor_array (m_array base)).last 1).data = base + 4 ∧
    ((span.ctor_array (m_array base)).last 1).elements (m_array_mem base) = [5] := by
  have hs1 := subspan_size_of_valid w v offset count hv ho hc
  have hs2 := subspan_default_size_of_valid w v offset hv ho
  have hr1 : (v.subspan w offset count).subscript i = v.subscript (offset + i) := by
    simp only [span.subspan, span.ctor_ptr_count, span.subscript]
    push_cast
    ring
  have hr2 : (v.subspan_default w offset).subscript j = v.subscript (offset + j) := by
    simp only [span.subspan_default, span.subspan, span.ctor_ptr_count, span.subscript]
    push_cast
    ring
  have hex : (span.ctor_array (m_array base)).subspan w 2 2 = span.mk (base + 2) 2 := by
    simp only [span.subspan, span.ctor_ptr_count, span.ctor_array, m_array,
      dynamic_extent_eq, if_pos (two_pow_sub_one_ne_two w)]
    rfl
  have hlast : (span.ctor_array (m_array base)).last 1 = span.mk (base + 4) 1 := by
    simp only [span.last, span.ctor_ptr_count, span.ctor_array, m_array]
    congr 1
    push_cast
    ring
  refine ⟨hr1, by rw [hr1], by rw [hs1]; exact hi, by omega, hr2, by rw [hr2],
    by rw [hs2]; exact hj, by omega, by rw [hex]; rfl, by rw [hex]; rfl, ?_,
    by rw [hlast]; rfl, ?_⟩
  · rw [hex]
    have e0 : m_array_mem base (base + 2 + ((0 : Nat) : Int)) = 3 := by
      have h := m_array_mem_at base 2 (by decide)
      simpa using h
    have e1 : m_array_mem base (base + 2 + ((1 : Nat) : Int)) = 4 := by
      have h := m_array_mem_at base 3 (by decide)
      have h3 : base + 2 + ((1 : Nat) : Int) = base + ((3 : Nat) : Int) := by push_cast; ring
      rw [h3, h]
      rfl
    simp only [span.elements, span.size, span.subscript, deref, List.range_succ,
      List.range_zero, List.nil_append, List.map_append, List.map_cons, List.map_nil, e0, e1]
    rfl
  · rw [hlast]
    have e4 : m_array_mem base (base + 4 + ((0 : Nat) : Int)) = 5 := by
      have h := m_array_mem_at base 4 (by decide)
      simpa using h
    simp only [span.elements, span.size, span.subscript, deref, List.range_succ,
      List.range_zero, List.nil_append, List.map_cons, List.map_nil, e4]

/-- Concrete instance: the view of `m_array` at address 100 with 16-bit
`size_t`, offset 2, count 2, index 1 in both subviews, and `last(1)`. -/
theorem span.subspan_subscript_witness :
    (span.mk 100 5).size < 2 ^ 16 ∧ 2 ≤ (span.mk 100 5).size ∧
    2 ≤ (span.mk 100 5).size - 2 ∧ 1 < 2 ∧ 1 < (span.mk 100 5).size - 2 ∧
    ((span.mk 100 5).subspan 16 2 2).subscript 1 = (span.mk 100 5).subscript (2 + 1) ∧
    deref (m_array_mem 100) (((span.mk 100 5).subspan 16 2 2).subscript 1) = 4 ∧
    ((span.ctor_array (m_array 100)).subspan 16 2 2).elements (m_array_mem 100) = [3, 4] ∧
    ((span.ctor_array (m_array 100)).last 1).elements (m_array_mem 100) = [5] :=
  have h := span.subspan_subscript (m_array_mem 100) 16 (span.mk 100 5) 2 2 1 1 100
    (by decide) (by decide) (by decide) (by decide) (by decide)
  ⟨by decide, by decide, by decide, by decide, by decide, h.1,
    h.2.1.trans (by decide), h.2.2.2.2.2.2.2.2.2.2.1, h.2.2.2.2.2.2.2.2.2.2.2.2⟩

/-- Claim C5: for every view, every `n ≤ size()` and every `i < n`, the
reference `first(n)[i]` is `v[i]` and the reference `last(n)[i]` is
`v[size() - n + i]`, so they read the same elements of any memory, in the
same order. -/
theorem span.first_last_subscript {α : Type} (m : Mem α) (v : span) (n i : Nat)
    (hn : n ≤ v.size) (hi : i < n) :
    (v.first n).subscript i = v.subscript i ∧
    deref m ((v.first n).subscript i) = deref m (v.subscript i) ∧
    (v.last n).subscript i = v.subscript (v.size - n + i) ∧
    deref m ((v.last n).subscript i) = deref m (v.subscript (v.size - n + i)) ∧
    i < (v.first n).size ∧ i < (v.last n).size ∧ i < v.size ∧ v.size - n + i < v.size ∧
    (v.first n).elements m = (v.elements m).take n ∧
    (v.last n).elements m = (v.elements m).drop (v.size - n) := by
  simp only [span.size] at hn
  have hl : ∀ k : Nat, (v.last n).subscript k = v.subscript (v.size - n + k) := by
    intro k
    simp only [span.last, span.ctor_ptr_count, span.subscript, span.size]
    push_cast [Nat.cast_sub hn]
    ring
  refine ⟨rfl, rfl, hl i, by rw [hl i], hi, hi, by simp only [span.size]; omega,
    by simp only [span.size]; omega, ?_, ?_⟩
  · simp only [span.elements, span.first, span.ctor_ptr_count, span.size, span.subscript]
    rw [← List.map_take, List.take_range, Nat.min_eq_left hn]
  · simp only [span.elements]
    rw [← List.map_drop]
    simp only [hl]
    apply List.ext_getElem
    · simp [span.last, span.ctor_ptr_count, span.size]; omega
    · intro k h1 h2
      simp [span.size, List.getElem_drop]

/-- Concrete instance: `first(3)[1]` and `last(3)[1]` over `m_array` at
address 100. -/
theorem span.first_last_subscript_witness :
    3 ≤ (span.mk 100 5).size ∧ 1 < 3 ∧
    deref (m_array_mem 100) (((span.mk 100 5).first 3).subscript 1) = 2 ∧
    deref (m_array_mem 100) (((span.mk 100 5).last 3).subscript 1) = 4 :=
  have h := span.first_last_subscript (m_array_mem 100) (span.mk 100 5) 3 1
    (by decide) (by decide)
  ⟨by decide, by decide, h.2.1.trans (by decide), h.2.2.2.1.trans (by decide)⟩

/-! ## Iteration -/

/-- Claim C6: for every view of size `k`, `begin()` is `data()` and `end()` is
`data() + k`, `cbegin()` and `cend()` are the same addresses, `end() - begin()`
is `k`, and the loop stepping an iterator from `begin()` until it equals
`end()` terminates (any fuel of at least `k` steps is enough) having visited
exactly the addresses `data() + 0, ..., data() + (k - 1)` in index order, each
once; for an empty view `begin()` equals `end()` and nothing is visited, with
any fuel. -/
theorem span.iteration_visits (v : span) (fuel : Nat) (hf : v.size ≤ fuel) :
    v.begin = v.data ∧ v.end_ = v.data + v.size ∧
    v.cbegin = v.begin ∧ v.cend = v.end_ ∧
    ptr_diff v.end_ v.begin = v.size ∧ ptr_diff v.cend v.cbegin = v.size ∧
    range_for fuel v = some ((List.range v.size).map (fun i : Nat => v.data + i)) ∧
    ((List.range v.size).map (fun i : Nat => v.data + i)).length = v.size ∧
    ((List.range v.size).map (fun i : Nat => v.data + i)).Nodup ∧
    ((List.range v.size).map (fun i : Nat => v.data + i)) =
      (List.range v.size).map (fun i : Nat => v.subscript i) ∧
    (v.empty = true → v.begin = v.end_ ∧ ∀ fuel0 : Nat, range_for fuel0 v = some []) := by
  have hd : ptr_diff v.end_ v.begin = v.size := by
    simp only [ptr_diff, span.end_, span.begin, span.size]
    ring
  refine ⟨rfl, rfl, rfl, rfl, hd, hd, ?_, by simp, ?_, rfl, ?_⟩
  · exact iterate_range v.size fuel v.ptr_ hf
  · apply List.Nodup.map _ (List.nodup_range _)
    intro a b hab
    have hab2 : v.data + (a : Int) = v.data + (b : Int) := hab
    exact_mod_cast add_left_cancel hab2
  · intro he
    have h0 : v.size_ = 0 := by simpa [span.empty] using he
    refine ⟨by simp [span.begin, span.end_, h0], ?_⟩
    intro fuel0
    have h := iterate_range 0 fuel0 v.ptr_ (Nat.zero_le _)
    simpa [range_for, span.begin, span.end_, h0] using h

/-- Concrete instance: the view of 3 elements at address 100 is iterated with
fuel 3 and visits the addresses 100, 101, 102; the null empty view is iterated
with no fuel. -/
theorem span.iteration_visits_witness :
    (span.mk 100 3).size ≤ 3 ∧ range_for 3 (span.mk 100 3) = some [100, 101, 102] ∧
    (span.mk 0 0).empty = true ∧ range_for 0 (span.mk 0 0) = some [] :=
  ⟨by decide, (span.iteration_visits (span.mk 100 3) 3 (by decide)).2.2.2.2.2.2.1.trans (by decide),
    by decide,
    ((span.iteration_visits (span.mk 0 0) 0 (by decide)).2.2.2.2.2.2.2.2.2.2 (by decide)).2 0⟩

/-! ## Construction, copy and assignment -/

/-- Claim C7: a default-constructed view has size 0, is empty, has the null
data pointer, and its `begin()` and `end()` are both null. -/
theorem span.default_constructed :
    span.ctor_default.size = 0 ∧ span.ctor_default.empty = true ∧
    span.ctor_default.data = nullptr ∧
    span.ctor_default.begin = span.ctor_default.end_ ∧
    span.ctor_default.begin = nullptr ∧ span.ctor_default.end_ = nullptr ∧
    span.ctor_default.cbegin = nullptr ∧ span.ctor_default.cend = nullptr := by
  refine ⟨rfl, rfl, rfl, ?_, rfl, ?_, rfl, ?_⟩ <;>
    simp [span.ctor_default, span.begin, span.end_, span.cend]

/-- Claim C8: a view made by copy construction from `original`, and any view
after copy assignment from `original` whatever it held before, has the data
pointer and the size of `original`, hence denotes the same element as
`original` at every index; the original is unchanged by the copy, also when a
view is assigned to itself. -/
theorem span.copy_preserves {α : Type} (m : Mem α) (env : Env) (target original : Nat)
    (previous : span) (i : Nat) :
    (span.ctor_copy (env original)).data = (env original).data ∧
    (span.ctor_copy (env original)).size = (env original).size ∧
    (span.operator_assign previous (env original)).data = (env original).data ∧
    (span.operator_assign previous (env original)).size = (env original).size ∧
    (env.copy_construct target original target).data = (env original).data ∧
    (env.copy_construct target original target).size = (env original).size ∧
    (env.copy_construct target original target).subscript i = (env original).subscript i ∧
    deref m ((env.copy_construct target original target).subscript i) =
      deref m ((env original).subscript i) ∧
    env.copy_construct target original original = env original ∧
    (env.copy_assign target original target).data = (env original).data ∧
    (env.copy_assign target original target).size = (env original).size ∧
    (env.copy_assign target original target).subscript i = (env original).subscript i ∧
    deref m ((env.copy_assign target original target).subscript i) =
      deref m ((env original).subscript i) ∧
    env.copy_assign target original original = env original := by
  have hc : env.copy_construct target original target = env original := by
    simp [Env.copy_construct, span.ctor_copy]
  have ha : env.copy_assign target original target = env original := by
    simp [Env.copy_assign, span.operator_assign]
  have hc2 : env.copy_construct target original original = env original := by
    by_cases h : original = target
    · subst h; exact hc
    · simp [Env.copy_construct, Function.update_noteq h]
  have ha2 : env.copy_assign target original original = env original := by
    by_cases h : original = target
    · subst h; exact ha
    · simp [Env.copy_assign, Function.update_noteq h]
  refine ⟨rfl, rfl, rfl, rfl, ?_, ?_, ?_, ?_, hc2, ?_, ?_, ?_, ?_, ha2⟩ <;>
    simp only [hc, ha]

/-- Claim C9: for every pointer `p`, null included, and every count `c`, the
constructor `span(p, c)` is total and yields a view with `data() == p` and
`size() == c`; `empty()` is true iff `c == 0`. A null pointer with a nonzero
count is stored verbatim as well. -/
theorem span.ctor_ptr_count_verbatim (p : Ptr) (c : Nat) :
    (span.ctor_ptr_count p c).data = p ∧ (span.ctor_ptr_count p c).size = c ∧
    ((span.ctor_ptr_count p c).empty = true ↔ c = 0) ∧
    (span.ctor_ptr_count nullptr c).data = nullptr ∧
    (span.ctor_ptr_count nullptr c).size = c := by
  refine ⟨rfl, rfl, ?_, rfl, rfl⟩
  simp [span.ctor_ptr_count, span.empty]

/-- Claim C10: for every array `a` of `N` elements, `span(a)` has `data()` equal
to the address of the first element of `a` and `size() == N`, where `N` is the
value `core::size(a)` returns; and `core::size` of any view is its `size()`. -/
theorem span.ctor_array_size (a : CArray) (v : span) :
    (span.ctor_array a).data = a.addr ∧ (span.ctor_array a).size = a.N ∧
    size_array a = a.N ∧ (span.ctor_array a).size = size_array a ∧
    core.size v = v.size ∧ core.size (span.ctor_array a) = size_array a :=
  ⟨rfl, rfl, rfl, rfl, rfl, rfl⟩

/-! ## Element access and observers -/

/-- Claim C11: for every non-empty view, `front()` is the element at index 0
(the reference `v[0]`, at address `data()`), and `back()` is the element at
index `size() - 1` (the reference `v[size() - 1]`); for a view of size 1 they
are the same element. -/
theorem span.front_back_access {α : Type} (m : Mem α) (w : Nat) (v : span)
    (hne : v.empty = false) (hv : v.size < 2 ^ w) :
    v.front = v.subscript 0 ∧ v.front = v.data ∧
    deref m v.front = deref m (v.subscript 0) ∧ deref m v.front = deref m v.data ∧
    v.back w = v.subscript (v.size - 1) ∧
    deref m (v.back w) = deref m (v.subscript (v.size - 1)) ∧
    v.size - 1 < v.size ∧
    (v.size = 1 → v.front = v.back w ∧ deref m v.front = deref m (v.back w)) := by
  have hpos : 0 < v.size_ := by
    have h : v.size_ ≠ 0 := by simpa [span.empty] using hne
    omega
  have hb := back_eq_subscript w v hpos hv
  have hf : v.front = v.subscript 0 := by simp [span.front, span.subscript]
  have hd : v.front = v.data := by simp [span.front, span.data]
  refine ⟨hf, hd, by rw [hf], by rw [hd], hb, by rw [hb]; rfl, ?_, ?_⟩
  · simp only [span.size]; omega
  · intro h1
    have h1' : v.size_ = 1 := h1
    have : v.front = v.back w := by rw [hb, hf, h1']
    exact ⟨this, by rw [this]⟩

/-- Concrete instance: `front()` and `back()` of the view over `m_array` at
address 100 read 1 and 5; over one element they coincide. -/
theorem span.front_back_access_witness :
    (span.mk 100 5).empty = false ∧ (span.mk 100 5).size < 2 ^ 16 ∧
    deref (m_array_mem 100) (span.mk 100 5).front = 1 ∧
    deref (m_array_mem 100) ((span.mk 100 5).back 16) = 5 ∧
    (span.mk 100 1).front = (span.mk 100 1).back 16 :=
  have h := span.front_back_access (m_array_mem 100) 16 (span.mk 100 5) (by decide) (by decide)
  have h1 := span.front_back_access (m_array_mem 100) 16 (span.mk 100 1) (by decide) (by decide)
  ⟨by decide, by decide, h.2.2.1.trans (by decide), h.2.2.2.2.2.1.trans (by decide),
    (h1.2.2.2.2.2.2.2 (by decide)).1⟩

/-- Claim C12: for every view and element size `sizeof(T)`, `size()` is the
stored element count, `size_bytes()` is `size() * sizeof(T)` as computed in
`size_t` (the product itself whenever it is a `size_t` value), `empty()` is
true iff `size() == 0`, and `size_bytes()` is 0 for every empty view. -/
theorem span.observers (w sizeofT : Nat) (v : span) :
    v.size = v.size_ ∧
    v.size_bytes w sizeofT = (v.size * sizeofT) % 2 ^ w ∧
    (v.size * sizeofT < 2 ^ w → v.size_bytes w sizeofT = v.size * sizeofT) ∧
    (v.empty = true ↔ v.size = 0) ∧
    (v.empty = true → v.size_bytes w sizeofT = 0) := by
  have hb : v.size_bytes w sizeofT = (v.size * sizeofT) % 2 ^ w := by
    simp only [span.size_bytes, span.size]
    rw [← size_t_cast_eq_mod]
    push_cast
    rfl
  have he : v.empty = true ↔ v.size = 0 := by simp [span.empty, span.size]
  refine ⟨rfl, hb, ?_, he, ?_⟩
  · intro h
    rw [hb, Nat.mod_eq_of_lt h]
  · intro h
    rw [hb, he.1 h]
    simp

/-- Concrete instance: three `int` elements of 4 bytes with 64-bit `size_t`
take 12 bytes; the default view is empty and takes 0 bytes. -/
theorem span.observers_witness :
    (span.mk 100 3).size * 4 < 2 ^ 64 ∧ (span.mk 100 3).size_bytes 64 4 = 12 ∧
    span.ctor_default.empty = true ∧ span.ctor_default.size_bytes 64 4 = 0 :=
  have h := span.observers 64 4 (span.mk 100 3)
  ⟨by decide, h.2.2.1 (by decide), by decide,
    (span.observers 64 4 span.ctor_default).2.2.2.2 (by decide)⟩

/-! ## Writes through a view -/

/-- Claim C16: a view and its copies reference the same storage. For every
state in which the variable `c` has been copy-constructed from the view `v`,
and every index `i < size()`, the statement `c[i] = x` makes `v[i]` and the
cell at `data() + i` read `x`, leaves every other cell of the memory unchanged
and leaves all view variables (address and count) unchanged; the statements
`c.front() = x`, `*c.data() = x` and `c.back() = x` do the same at the
indices `0`, `0` and `size() - 1`. -/
theorem span.write_through_copy {α : Type} (w : Nat) (env : Env) (mem : Mem α)
    (v c i : Nat) (x : α) (hi : i < (env v).size) (hv : (env v).size < 2 ^ w) :
    (State.assign_subscript (State.mk (env.copy_construct c v) mem) c i x).env
        = env.copy_construct c v ∧
    (env.copy_construct c v v).data = (env v).data ∧
    (env.copy_construct c v v).size = (env v).size ∧
    (env.copy_construct c v c).data = (env v).data ∧
    (env.copy_construct c v c).size = (env v).size ∧
    deref (State.assign_subscript (State.mk (env.copy_construct c v) mem) c i x).mem
        ((env.copy_construct c v v).subscript i) = x ∧
    (State.assign_subscript (State.mk (env.copy_construct c v) mem) c i x).mem
        ((env v).data + i) = x ∧
    (∀ p : Ptr, p ≠ (env v).data + i →
      (State.assign_subscript (State.mk (env.copy_construct c v) mem) c i x).mem p = mem p) ∧
    deref (State.assign_front (State.mk (env.copy_construct c v) mem) c x).mem
        ((env.copy_construct c v v).subscript 0) = x ∧
    (∀ p : Ptr, p ≠ (env v).data + (0 : Nat) →
      (State.assign_front (State.mk (env.copy_construct c v) mem) c x).mem p = mem p) ∧
    deref (State.assign_data (State.mk (env.copy_construct c v) mem) c x).mem
        ((env.copy_construct c v v).subscript 0) = x ∧
    (∀ p : Ptr, p ≠ (env v).data + (0 : Nat) →
      (State.assign_data (State.mk (env.copy_construct c v) mem) c x).mem p = mem p) ∧
    deref (State.assign_back w (State.mk (env.copy_construct c v) mem) c x).mem
        ((env.copy_construct c v v).subscript ((env v).size - 1)) = x ∧
    (∀ p : Ptr, p ≠ (env v).data + (((env v).size - 1 : Nat) : Int) →
      (State.assign_back w (State.mk (env.copy_construct c v) mem) c x).mem p = mem p) ∧
    (State.assign_front (State.mk (env.copy_construct c v) mem) c x).env
        = env.copy_construct c v ∧
    (State.assign_data (State.mk (env.copy_construct c v) mem) c x).env
        = env.copy_construct c v ∧
    (State.assign_back w (State.mk (env.copy_construct c v) mem) c x).env
        = env.copy_construct c v := by
  have hcc : env.copy_construct c v c = env v := by
    simp [Env.copy_construct, span.ctor_copy]
  have hcv : env.copy_construct c v v = env v := by
    by_cases h : v = c
    · subst h; exact hcc
    · simp [Env.copy_construct, Function.update_noteq h]
  have hpos : 0 < (env v).size_ := by
    have : i < (env v).size_ := hi
    omega
  have hb := back_eq_subscript w (env v) hpos hv
  simp only [State.assign_subscript, State.assign_front, State.assign_data, State.assign_back,
    hcc, hcv, store, deref]
  refine ⟨trivial, trivial, trivial, trivial, trivial, ?_, ?_, ?_, ?_, ?_, ?_, ?_, ?_, ?_,
    trivial, trivial, trivial⟩
  · simp [span.subscript]
  · simp [span.subscript, span.data]
  · intro p hp
    exact Function.update_noteq (by simpa [span.subscript, span.data] using hp) _ _
  · simp [span.subscript, span.front]
  · intro p hp
    exact Function.update_noteq (by simpa [span.front, span.data] using hp) _ _
  · have h0 : (env v).ptr_ + ((0 : Nat) : Int) = (env v).ptr_ := by
      rw [Nat.cast_zero]
      exact add_zero _
    simp only [span.subscript, span.data]
    exact (congrArg (Function.update mem (env v).ptr_ x) h0).trans
      (Function.update_same _ _ _)
  · intro p hp
    exact Function.update_noteq (by simpa [span.data] using hp) _ _
  · rw [hb]
    simp [span.subscript, span.size]
  · intro p hp
    rw [hb]
    exact Function.update_noteq (by simpa [span.subscript, span.data, span.size] using hp) _ _

/-- Concrete instance: over `m_array` at address 100, variable 1 is a copy of
variable 0; `c[2] = 42` makes `v[2]` read 42 and leaves the cell 103 at 4. -/
theorem span.write_through_copy_witness :
    2 < (span.mk 100 5).size ∧ (span.mk 100 5).size < 2 ^ 16 ∧
    deref (State.assign_subscript
        (State.mk (Env.copy_construct (fun _ => span.mk 100 5) 1 0) (m_array_mem 100)) 1 2 42).mem
      ((Env.copy_construct (fun _ => span.mk 100 5) 1 0 0).subscript 2) = 42 ∧
    (State.assign_subscript
        (State.mk (Env.copy_construct (fun _ => span.mk 100 5) 1 0) (m_array_mem 100)) 1 2 42).mem
      103 = 4 :=
  have h := span.write_through_copy 16 (fun _ => span.mk 100 5) (m_array_mem 100) 0 1 2 42
    (by decide) (by decide)
  ⟨by decide, by decide, h.2.2.2.2.2.1, (h.2.2.2.2.2.2.2.1 103 (by decide)).trans (by decide)⟩

/-! ## The sentinel `dynamic_extent` -/

/-- Claim C18: `dynamic_extent` is the maximum value `2 ^ w - 1` of the `w`-bit
count type; for every view, offset and count, `subspan(offset, count)` has count
`size() - offset` (computed in `size_t`, the plain difference for a valid
offset) if `count` is the sentinel and exactly `count` otherwise; omitting the
count is the same as passing the sentinel. -/
theorem span.subspan_sentinel (w : Nat) (v : span) (offset count : Nat) :
    dynamic_extent w = 2 ^ w - 1 ∧ dynamic_extent w < 2 ^ w ∧
    (∀ n : Nat, n < 2 ^ w → n ≤ dynamic_extent w) ∧
    (count = dynamic_extent w →
      (v.subspan w offset count).size = size_t_cast w ((v.size : Int) - offset)) ∧
    (count = dynamic_extent w → offset ≤ v.size → v.size < 2 ^ w →
      (v.subspan w offset count).size = v.size - offset) ∧
    (count ≠ dynamic_extent w → (v.subspan w offset count).size = count) ∧
    v.subspan_default w offset = v.subspan w offset (dynamic_extent w) ∧
    (v.subspan w offset count).data = v.data + offset := by
  have hd := dynamic_extent_eq w
  have hpos : 0 < 2 ^ w := Nat.two_pow_pos w
  have hs : count = dynamic_extent w →
      (v.subspan w offset count).size = size_t_cast w ((v.size : Int) - offset) := by
    intro hc
    simp [span.subspan, span.ctor_ptr_count, span.size, hc]
  refine ⟨hd, by omega, fun n hn => by omega, hs, ?_, ?_, rfl, rfl⟩
  · intro hc ho hlt
    rw [hs hc]
    exact size_t_cast_sub w v.size_ offset hlt ho
  · intro hc
    simp [span.subspan, span.ctor_ptr_count, span.size, hc]

/-- Concrete instance: with 16-bit `size_t` the sentinel is 65535; over 5
elements `subspan(2, 65535)` has 3 elements and `subspan(2, 2)` has 2. -/
theorem span.subspan_sentinel_witness :
    dynamic_extent 16 = 65535 ∧
    ((span.mk 100 5).subspan 16 2 65535).size = 3 ∧
    ((span.mk 100 5).subspan 16 2 2).size = 2 :=
  have h := span.subspan_sentinel 16 (span.mk 100 5) 2 65535
  have h2 := span.subspan_sentinel 16 (span.mk 100 5) 2 2
  ⟨h.1, h.2.2.2.2.1 (by decide) (by decide) (by decide), h2.2.2.2.2.2.1 (by decide)⟩

/-! ## Helper lemmas on `float` rounding, `raw_to_mv` and formatting -/

namespace adc

theorem round_half_even_bounds (x : ℚ) :
    ⌊x⌋ ≤ round_half_even x ∧ round_half_even x ≤ ⌊x⌋ + 1 := by
  unfold round_half_even
  split_ifs <;> omega

theorem round_half_even_mono {x y : ℚ} (h : x ≤ y) : round_half_even x ≤ round_half_even y := by
  have hf : ⌊x⌋ ≤ ⌊y⌋ := Int.floor_mono h
  rcases lt_or_eq_of_le hf with hlt | heq
  · have h1 := (round_half_even_bounds x).2
    have h2 := (round_half_even_bounds y).1
    omega
  · unfold round_half_even
    rw [heq]
    split_ifs <;> first | omega | (exfalso; linarith)

theorem round_half_even_intCast (z : Int) : round_half_even (z : ℚ) = z := by
  unfold round_half_even
  simp

theorem round_half_even_eq_of_abs_lt (x : ℚ) (m : Int) (h : |x - m| < 1 / 2) :
    round_half_even x = m := by
  rw [abs_lt] at h
  obtain ⟨h1, h2⟩ := h
  rcases le_or_lt (m : ℚ) x with hle | hlt
  · have hfl : ⌊x⌋ = m := by
      rw [Int.floor_eq_iff]
      constructor <;> linarith
    unfold round_half_even
    rw [hfl, if_pos (by linarith)]
  · have hfl : ⌊x⌋ = m - 1 := by
      rw [Int.floor_eq_iff]
      push_cast
      constructor <;> linarith
    unfold round_half_even
    rw [hfl]
    push_cast
    rw [if_neg (by linarith), if_pos (by linarith)]
    ring

theorem float_round_zero : float_round 0 = 0 := by simp [float_round]

theorem float_exponent_eq (x : ℚ) (e : Int) (hlo : (2 : ℚ) ^ e ≤ x) (hhi : x < (2 : ℚ) ^ (e + 1))
    (he : -126 ≤ e) : float_exponent x = e := by
  have hpos : 0 < x := lt_of_lt_of_le (by positivity) hlo
  have hlog : Int.log 2 |x| = e := by
    rw [abs_of_pos hpos]
    apply le_antisymm
    · have := (Int.lt_zpow_iff_log_lt (b := 2) (by norm_num) hpos (x := e + 1)).1 (by exact_mod_cast hhi)
      omega
    · exact (Int.zpow_le_iff_le_log (b := 2) (by norm_num) hpos).1 (by exact_mod_cast hlo)
  unfold float_exponent
  rw [hlog]
  exact max_eq_left he

theorem float_round_eq (x : ℚ) (e m : Int) (hlo : (2 : ℚ) ^ e ≤ x) (hhi : x < (2 : ℚ) ^ (e + 1))
    (he : -126 ≤ e) (hm : |x / 2 ^ (e - 23) - m| < 1 / 2) :
    float_round x = m * 2 ^ (e - 23) := by
  have hpos : 0 < x := lt_of_lt_of_le (by positivity) hlo
  unfold float_round
  rw [if_neg (ne_of_gt hpos), float_exponent_eq x e hlo hhi he,
    round_half_even_eq_of_abs_lt _ m hm]

theorem float_round_nonneg {x : ℚ} (hx : 0 ≤ x) : 0 ≤ float_round x := by
  unfold float_round
  split_ifs with h0
  · exact le_refl 0
  · have hu : (0 : ℚ) < 2 ^ (float_exponent x - 23) := by positivity
    have h1 : (0 : ℚ) ≤ x / 2 ^ (float_exponent x - 23) := div_nonneg hx hu.le
    have h2 : (0 : Int) ≤ round_half_even (x / 2 ^ (float_exponent x - 23)) := by
      have := round_half_even_mono h1
      rwa [show ((0 : ℚ)) = ((0 : Int) : ℚ) by simp, round_half_even_intCast] at this
    exact mul_nonneg (by exact_mod_cast h2) hu.le

theorem float_round_le_pow {x : ℚ} (hx : 0 < x) :
    float_round x ≤ 2 ^ (float_exponent x + 1) := by
  have hu : (0 : ℚ) < 2 ^ (float_exponent x - 23) := by positivity
  have hlog : x < (2 : ℚ) ^ (Int.log 2 |x| + 1) := by
    have := Int.lt_zpow_succ_log_self (b := 2) (by norm_num) |x|
    rw [abs_of_pos hx] at this ⊢
    exact_mod_cast this
  have hle : Int.log 2 |x| + 1 ≤ float_exponent x + 1 := by
    unfold float_exponent
    have := le_max_left (Int.log 2 |x|) (-126)
    omega
  have hx2 : x < (2 : ℚ) ^ (float_exponent x + 1) :=
    lt_of_lt_of_le hlog (zpow_le_zpow_right₀ (by norm_num) hle)
  have hsplit : (2 : ℚ) ^ (float_exponent x + 1) = 2 ^ (24 : Int) * 2 ^ (float_exponent x - 23) := by
    rw [← zpow_add₀ (by norm_num : (2 : ℚ) ≠ 0)]
    congr 1
    ring
  have h1 : x / 2 ^ (float_exponent x - 23) ≤ (((2 ^ 24 : Int)) : ℚ) := by
    rw [div_le_iff₀ hu]
    have : (((2 ^ 24 : Int)) : ℚ) = 2 ^ (24 : Int) := by norm_num
    rw [this, ← hsplit]
    exact hx2.le
  have h2 := round_half_even_mono h1
  rw [round_half_even_intCast] at h2
  unfold float_round
  rw [if_neg (ne_of_gt hx), hsplit]
  apply mul_le_mul_of_nonneg_right _ hu.le
  have : (((2 ^ 24 : Int)) : ℚ) = 2 ^ (24 : Int) := by norm_num
  rw [← this]
  exact_mod_cast h2

theorem pow_le_float_round {x : ℚ} (hx : 0 < x) (hn : -126 < float_exponent x) :
    (2 : ℚ) ^ float_exponent x ≤ float_round x := by
  have hu : (0 : ℚ) < 2 ^ (float_exponent x - 23) := by positivity
  have hE : float_exponent x = Int.log 2 |x| := by
    unfold float_exponent at hn ⊢
    rcases max_cases (Int.log 2 |x|) (-126) with ⟨h, _⟩ | ⟨h, _⟩
    · exact h
    · rw [h] at hn; omega
  have hlog : (2 : ℚ) ^ float_exponent x ≤ x := by
    rw [hE]
    have := Int.zpow_log_le_self (b := 2) (by norm_num) (abs_pos.2 (ne_of_gt hx))
    rw [abs_of_pos hx] at this ⊢
    exact_mod_cast this
  have hsplit : (2 : ℚ) ^ float_exponent x = 2 ^ (23 : Int) * 2 ^ (float_exponent x - 23) := by
    rw [← zpow_add₀ (by norm_num : (2 : ℚ) ≠ 0)]
    congr 1
    ring
  have hc : (((2 ^ 23 : Int)) : ℚ) = 2 ^ (23 : Int) := by norm_num
  have h1 : (((2 ^ 23 : Int)) : ℚ) ≤ x / 2 ^ (float_exponent x - 23) := by
    rw [le_div_iff₀ hu, hc, ← hsplit]
    exact hlog
  have h2 := round_half_even_mono h1
  rw [round_half_even_intCast] at h2
  unfold float_round
  rw [if_neg (ne_of_gt hx)]
  nth_rewrite 1 [hsplit]
  apply mul_le_mul_of_nonneg_right _ hu.le
  rw [← hc]
  exact_mod_cast h2

theorem float_exponent_mono {x y : ℚ} (hx : 0 < x) (h : x ≤ y) :
    float_exponent x ≤ float_exponent y := by
  unfold float_exponent
  have hy : 0 < y := lt_of_lt_of_le hx h
  have := Int.log_mono_right (b := 2) (abs_pos.2 (ne_of_gt hx))
    (by rw [abs_of_pos hx, abs_of_pos hy]; exact h : |x| ≤ |y|)
  exact max_le_max this (le_refl _)

theorem float_round_mono {x y : ℚ} (hx : 0 ≤ x) (h : x ≤ y) : float_round x ≤ float_round y := by
  rcases eq_or_lt_of_le hx with h0 | hpos
  · rw [← h0, float_round_zero]
    exact float_round_nonneg (le_trans hx h)
  · have hy : 0 < y := lt_of_lt_of_le hpos h
    rcases eq_or_lt_of_le (float_exponent_mono hpos h) with he | he
    · have hu : (0 : ℚ) < 2 ^ (float_exponent y - 23) := by positivity
      unfold float_round
      rw [if_neg (ne_of_gt hpos), if_neg (ne_of_gt hy), he]
      apply mul_le_mul_of_nonneg_right _ hu.le
      have := round_half_even_mono (div_le_div_of_nonneg_right h hu.le)
      exact_mod_cast this
    · have hmin : -126 ≤ float_exponent x := le_max_right _ _
      have h1 := float_round_le_pow hpos
      have h2 := pow_le_float_round hy (by omega)
      have h3 : (2 : ℚ) ^ (float_exponent x + 1) ≤ 2 ^ float_exponent y :=
        zpow_le_zpow_right₀ (by norm_num) (by omega)
      exact le_trans h1 (le_trans h3 h2)


theorem adc_range_eq : adc_range = 1023 := by decide

theorem float_round_5000 : float_round 5000 = 5000 := by
  rw [float_round_eq 5000 12 10240000 (by norm_num) (by norm_num) (by norm_num)
    (by norm_num [abs_lt])]
  norm_num

theorem float_round_1023 : float_round 1023 = 1023 := by
  rw [float_round_eq 1023 9 16760832 (by norm_num) (by norm_num) (by norm_num)
    (by norm_num [abs_lt])]
  norm_num

theorem adc_scale_eq : adc_scale = 5125005 / 1048576 := by
  unfold adc_scale
  rw [adc_range_eq]
  norm_num only [Nat.cast_ofNat]
  rw [float_round_5000, float_round_1023,
    float_round_eq (5000 / 1023) 2 10250010 (by norm_num) (by norm_num) (by norm_num)
      (by norm_num [abs_lt])]
  norm_num

theorem raw_to_mv_zero : raw_to_mv 0 = 0 := by
  simp [raw_to_mv, float_round_zero]

theorem raw_to_mv_1023 : raw_to_mv 1023 = 5000 := by
  unfold raw_to_mv
  rw [adc_scale_eq]
  norm_num only [Nat.cast_ofNat]
  rw [float_round_1023,
    float_round_eq (1023 * (5125005 / 1048576)) 12 10240000 (by norm_num) (by norm_num)
      (by norm_num) (by norm_num [abs_lt])]
  norm_num

theorem adc_scale_pos : 0 < adc_scale := by
  rw [adc_scale_eq]
  norm_num

theorem raw_to_mv_nonneg (a : Nat) : 0 ≤ raw_to_mv a :=
  float_round_nonneg (mul_nonneg (float_round_nonneg (Nat.cast_nonneg a)) adc_scale_pos.le)

theorem raw_to_mv_mono {a b : Nat} (h : a ≤ b) : raw_to_mv a ≤ raw_to_mv b := by
  unfold raw_to_mv
  have h1 : float_round (a : ℚ) ≤ float_round (b : ℚ) :=
    float_round_mono (Nat.cast_nonneg a) (by exact_mod_cast h)
  exact float_round_mono
    (mul_nonneg (float_round_nonneg (Nat.cast_nonneg a)) adc_scale_pos.le)
    (mul_le_mul_of_nonneg_right h1 adc_scale_pos.le)

theorem raw_to_mv_le_5000 {a : Nat} (h : a ≤ 1023) : raw_to_mv a ≤ 5000 := by
  have := raw_to_mv_mono h
  rwa [raw_to_mv_1023] at this

theorem float_to_uint16_le {x : ℚ} {n : Nat} (h0 : 0 ≤ x) (h : x ≤ n) (hn : n < 65536) :
    float_to_uint16 x ≤ n := by
  unfold float_to_uint16
  rw [if_pos h0]
  have h1 : 0 ≤ ⌊x⌋ := Int.floor_nonneg.2 h0
  have h2 : ⌊x⌋ ≤ (n : Int) := by
    have := Int.floor_mono h
    rwa [Int.floor_natCast] at this
  have h3 : ⌊x⌋ % 2 ^ 16 = ⌊x⌋ := Int.emod_eq_of_lt h1 (by omega)
  rw [h3]
  omega

theorem float_to_uint16_natCast (n : Nat) (hn : n < 65536) : float_to_uint16 (n : ℚ) = n := by
  unfold float_to_uint16
  rw [if_pos (Nat.cast_nonneg n), Int.floor_natCast,
    Int.emod_eq_of_lt (Int.natCast_nonneg n) (by omega)]
  exact Int.toNat_natCast n

theorem fmt_u_length_le (n e : Nat) (he : 0 < e) (h : n < 10 ^ e) : (fmt_u n).length ≤ e :=
  Nat.repr_length n e he h

theorem format_u_u_length (a b : Nat) :
    (format_u_u a b).length = (fmt_u a).length + 2 + (fmt_u b).length := by
  simp [format_u_u, String.length_append]
  rfl

theorem digitChar_ne_E : ∀ k : Nat, k < 10 → Nat.digitChar k ≠ 'E' := by decide

theorem toDigitsCore_no_E (f : Nat) : ∀ (n : Nat) (ds : List Char), 'E' ∉ ds →
    'E' ∉ Nat.toDigitsCore 10 f n ds := by
  induction f with
  | zero => intro n ds h; simpa [Nat.toDigitsCore] using h
  | succ f ih =>
    intro n ds h
    have hcons : 'E' ∉ Nat.digitChar (n % 10) :: ds := by
      simp only [List.mem_cons, not_or]
      exact ⟨fun he => digitChar_ne_E _ (Nat.mod_lt n (by decide)) he.symm, h⟩
    simp only [Nat.toDigitsCore]
    split_ifs
    · exact hcons
    · exact ih _ _ hcons

theorem fmt_u_no_E (n : Nat) : 'E' ∉ (fmt_u n).data := by
  simp only [fmt_u, Nat.repr, Nat.toDigits, List.asString]
  exact toDigitsCore_no_E _ _ _ (by simp)

theorem format_u_u_ne_sentinel (a b : Nat) : format_u_u a b ≠ "Err, Err" := by
  intro h
  have h1 : 'E' ∈ (format_u_u a b).data := by rw [h]; decide
  simp only [format_u_u, String.data_append, List.mem_append] at h1
  rcases h1 with (h1 | h1) | h1
  · exact fmt_u_no_E a h1
  · revert h1; decide
  · exact fmt_u_no_E b h1

theorem size_t_cast_natCast_le (w n : Nat) : size_t_cast w (n : Int) ≤ n := by
  unfold size_t_cast
  have h : ((n : Int)) % 2 ^ w = ((n % 2 ^ w : Nat) : Int) := by push_cast; rfl
  rw [h, Int.toNat_natCast]
  exact Nat.mod_le _ _

theorem snprintf_of_fits (text : String) (h : text.length < buffer_size) :
    snprintf buffer_size text = (text, (text.length : Int)) := by
  have hl : text.data.length ≤ buffer_size - 1 := by
    have : text.data.length = text.length := rfl
    omega
  simp only [snprintf, List.take_of_length_le hl]

theorem format_reading_of_fits (w a b : Nat) (h : (format_u_u a b).length < 16) :
    format_reading w a b = format_u_u a b := by
  unfold format_reading
  rw [snprintf_of_fits _ h]
  unfold check_result
  have h1 := size_t_cast_natCast_le w (format_u_u a b).length
  rw [if_neg]
  simp only [not_or, not_lt, not_le]
  refine ⟨Int.natCast_nonneg _, ?_⟩
  show size_t_cast w ((format_u_u a b).length : Int) < 16
  omega

theorem format_reading_of_overflow (w a b : Nat) (h : 16 ≤ (format_u_u a b).length)
    (hw : (format_u_u a b).length < 2 ^ w) : format_reading w a b = "Err, Err" := by
  unfold format_reading check_result
  rw [if_pos]
  right
  show 16 ≤ size_t_cast w ((format_u_u a b).length : Int)
  unfold size_t_cast
  have h2 : (((format_u_u a b).length : Int)) % 2 ^ w = (format_u_u a b).length := by
    apply Int.emod_eq_of_lt (Int.natCast_nonneg _)
    exact_mod_cast hw
  rw [h2, Int.toNat_natCast]
  exact h

theorem float_round_natCast (n : Nat) (h : n < 2 ^ 24) : float_round (n : ℚ) = n := by
  rcases Nat.eq_zero_or_pos n with rfl | hpos
  · simpa using float_round_zero
  · have he : Nat.log 2 n ≤ 23 := by
      have := Nat.log_lt_of_lt_pow (by omega) h
      omega
    have hsplit : (2 : ℚ) ^ ((Nat.log 2 n : ℤ) - 23) * 2 ^ (23 - Nat.log 2 n) = 1 := by
      rw [← zpow_natCast, ← zpow_add₀ (by norm_num)]
      have : ((Nat.log 2 n : ℤ) - 23) + ((23 - Nat.log 2 n : ℕ) : ℤ) = 0 := by omega
      rw [this, zpow_zero]
    have hu : (0 : ℚ) < 2 ^ ((Nat.log 2 n : ℤ) - 23) := by positivity
    have hdiv : (n : ℚ) / 2 ^ ((Nat.log 2 n : ℤ) - 23)
        = ((((n * 2 ^ (23 - Nat.log 2 n) : ℕ)) : ℤ) : ℚ) := by
      rw [div_eq_iff hu.ne']
      push_cast
      rw [mul_assoc, mul_comm ((2 : ℚ) ^ (23 - Nat.log 2 n)), hsplit, mul_one]
    rw [float_round_eq n (Nat.log 2 n) ((n * 2 ^ (23 - Nat.log 2 n) : ℕ) : ℤ) ?_ ?_ (by omega)
      (by rw [hdiv]; simp)]
    · push_cast
      rw [mul_assoc, mul_comm ((2 : ℚ) ^ (23 - Nat.log 2 n)), hsplit, mul_one]
    · rw [zpow_natCast]
      exact_mod_cast Nat.pow_log_le_self 2 hpos.ne'
    · have : ((Nat.log 2 n : ℤ) + 1) = ((Nat.log 2 n + 1 : ℕ) : ℤ) := by push_cast; rfl
      rw [this, zpow_natCast]
      exact_mod_cast Nat.lt_pow_succ_log_self (by norm_num) n

theorem mv16_zero : float_to_uint16 (raw_to_mv 0) = 0 := by
  rw [raw_to_mv_zero]
  exact_mod_cast float_to_uint16_natCast 0 (by decide)

theorem mv16_1023 : float_to_uint16 (raw_to_mv 1023) = 5000 := by
  rw [raw_to_mv_1023]
  exact_mod_cast float_to_uint16_natCast 5000 (by decide)

theorem format_length_10bit (raw : Nat) (h : raw ≤ 1023) :
    (fmt_u raw).length ≤ 4 ∧ (fmt_u (float_to_uint16 (raw_to_mv raw))).length ≤ 4 ∧
    (format_u_u raw (float_to_uint16 (raw_to_mv raw))).length ≤ 10 := by
  have h1 : (fmt_u raw).length ≤ 4 := fmt_u_length_le raw 4 (by decide) (by omega)
  have hmv : float_to_uint16 (raw_to_mv raw) ≤ 5000 :=
    float_to_uint16_le (raw_to_mv_nonneg raw) (by exact_mod_cast raw_to_mv_le_5000 h)
      (by decide)
  have h2 : (fmt_u (float_to_uint16 (raw_to_mv raw))).length ≤ 4 :=
    fmt_u_length_le _ 4 (by decide) (by omega)
  refine ⟨h1, h2, ?_⟩
  rw [format_u_u_length]
  omega

end adc

/-! ## ADC conversion and formatting -/

/-- Claim C13: `raw_to_mv(0) == 0.0` and `raw_to_mv(1023) == 5000.0` exactly,
where `raw_to_mv(raw)` is the `float` product of `raw` and the scale, and the
scale is the single-precision value of `5000 / 1023` (which is
`5125005 / 2 ^ 20`). -/
theorem adc.raw_to_mv_boundary :
    adc.raw_to_mv 0 = 0 ∧ adc.raw_to_mv 1023 = 5000 ∧
    adc.adc_range = 1023 ∧
    adc.adc_scale = adc.float_round (5000 / 1023) ∧
    adc.adc_scale = 5125005 / 2 ^ 20 ∧
    (∀ raw : Nat, raw < 2 ^ 16 →
      adc.raw_to_mv raw = adc.float_round ((raw : ℚ) * adc.adc_scale)) := by
  refine ⟨adc.raw_to_mv_zero, adc.raw_to_mv_1023, adc.adc_range_eq, ?_, ?_, ?_⟩
  · unfold adc.adc_scale
    rw [adc.adc_range_eq]
    norm_num only [Nat.cast_ofNat]
    rw [adc.float_round_5000, adc.float_round_1023]
  · rw [adc.adc_scale_eq]
    norm_num
  · intro raw hraw
    unfold adc.raw_to_mv
    rw [adc.float_round_natCast raw (by omega)]

/-- Concrete instance: the reading 1023 is converted exactly and its product
with the scale rounds to 5000. -/
theorem adc.raw_to_mv_boundary_witness :
    (1023 : Nat) < 2 ^ 16 ∧
    adc.float_round (((1023 : Nat) : ℚ) * adc.adc_scale) = 5000 :=
  ⟨by decide,
    ((adc.raw_to_mv_boundary.2.2.2.2.2 1023 (by decide)).symm).trans adc.raw_to_mv_boundary.2.1⟩

/-- Claim C14: for every raw reading whose formatted text fits the 16-byte
buffer, in particular every raw reading in `[0, 1023]`, `to_string(raw)` is the
decimal text of `raw`, then `", "`, then the decimal text of `raw_to_mv(raw)`
converted to `uint16_t`; `to_string(0)` is `"0, 0"` and `to_string(1023)` is
`"1023, 5000"`. -/
theorem adc.to_string_text (w raw : Nat)
    (hfit : (adc.format_u_u raw (adc.float_to_uint16 (adc.raw_to_mv raw))).length
      < adc.buffer_size) :
    adc.to_string w raw
      = adc.fmt_u raw ++ ", " ++ adc.fmt_u (adc.float_to_uint16 (adc.raw_to_mv raw)) ∧
    (∀ r : Nat, r ≤ 1023 →
      (adc.format_u_u r (adc.float_to_uint16 (adc.raw_to_mv r))).length < adc.buffer_size ∧
      adc.to_string w r
        = adc.fmt_u r ++ ", " ++ adc.fmt_u (adc.float_to_uint16 (adc.raw_to_mv r))) ∧
    adc.to_string w 0 = "0, 0" ∧ adc.to_string w 1023 = "1023, 5000" := by
  refine ⟨adc.format_reading_of_fits w _ _ hfit, ?_, ?_, ?_⟩
  · intro r hr
    have hlen := (adc.format_length_10bit r hr).2.2
    have hlt : (adc.format_u_u r (adc.float_to_uint16 (adc.raw_to_mv r))).length < 16 := by
      omega
    exact ⟨hlt, adc.format_reading_of_fits w _ _ hlt⟩
  · unfold adc.to_string
    rw [adc.mv16_zero, adc.format_reading_of_fits w 0 0 (by decide)]
    decide
  · unfold adc.to_string
    rw [adc.mv16_1023, adc.format_reading_of_fits w 1023 5000 (by decide)]
    decide

/-- Concrete instance: the reading 1023 with 16-bit `size_t`; its text has 10
characters. -/
theorem adc.to_string_text_witness :
    (adc.format_u_u 1023 (adc.float_to_uint16 (adc.raw_to_mv 1023))).length
      < adc.buffer_size ∧
    adc.to_string 16 1023
      = adc.fmt_u 1023 ++ ", " ++ adc.fmt_u (adc.float_to_uint16 (adc.raw_to_mv 1023)) :=
  have hfit : (adc.format_u_u 1023 (adc.float_to_uint16 (adc.raw_to_mv 1023))).length
      < adc.buffer_size := by rw [adc.mv16_1023]; decide
  ⟨hfit, (adc.to_string_text 16 1023 hfit).1⟩

/-- Claim C15: `to_string` returns the sentinel `"Err, Err"` if and only if the
result of the formatting is negative or the length of the complete formatted
text is at least 16; in every other case it returns the complete formatted
text, never a truncated one. Stated for the check on any outcome of `snprintf`
whose result is a `size_t` value, for any two printed values `a`, `b` (whose
text length is a `size_t` value), and for `to_string` itself. -/
theorem adc.to_string_sentinel_iff (w a b raw : Nat) (buffer : String) (result : Int)
    (hres : result < 2 ^ w)
    (hlen : (adc.format_u_u a b).length < 2 ^ w)
    (hraw : (adc.format_u_u raw (adc.float_to_uint16 (adc.raw_to_mv raw))).length < 2 ^ w) :
    ((result < 0 ∨ 16 ≤ result) → adc.check_result w (buffer, result) = "Err, Err") ∧
    (¬ (result < 0 ∨ 16 ≤ result) → adc.check_result w (buffer, result) = buffer) ∧
    (adc.format_reading w a b = "Err, Err" ↔ 16 ≤ (adc.format_u_u a b).length) ∧
    ((adc.format_u_u a b).length < 16 → adc.format_reading w a b = adc.format_u_u a b) ∧
    (adc.format_reading w a b = "Err, Err" ∨ adc.format_reading w a b = adc.format_u_u a b) ∧
    (adc.to_string w raw = "Err, Err" ↔
      16 ≤ (adc.format_u_u raw (adc.float_to_uint16 (adc.raw_to_mv raw))).length) ∧
    (adc.to_string w raw = "Err, Err" ∨
      adc.to_string w raw = adc.format_u_u raw (adc.float_to_uint16 (adc.raw_to_mv raw))) := by
  have hcast : 0 ≤ result → (adc.buffer_size ≤ size_t_cast w result ↔ 16 ≤ result) := by
    intro h0
    have h1 : result % 2 ^ w = result := Int.emod_eq_of_lt h0 hres
    simp only [size_t_cast, h1, adc.buffer_size]
    omega
  have hiff : ∀ x y : Nat, (adc.format_u_u x y).length < 2 ^ w →
      ((adc.format_reading w x y = "Err, Err" ↔ 16 ≤ (adc.format_u_u x y).length) ∧
       ((adc.format_u_u x y).length < 16 → adc.format_reading w x y = adc.format_u_u x y) ∧
       (adc.format_reading w x y = "Err, Err" ∨
         adc.format_reading w x y = adc.format_u_u x y)) := by
    intro x y hxy
    rcases Nat.lt_or_ge (adc.format_u_u x y).length 16 with hlt | hge
    · have hfit := adc.format_reading_of_fits w x y hlt
      refine ⟨⟨fun h => ?_, fun h => by omega⟩, fun _ => hfit, Or.inr hfit⟩
      rw [hfit] at h
      exact absurd h (adc.format_u_u_ne_sentinel x y)
    · have hover := adc.format_reading_of_overflow w x y hge hxy
      exact ⟨⟨fun _ => hge, fun _ => hover⟩, fun h => by omega, Or.inl hover⟩
  have hab := hiff a b hlen
  have hr := hiff raw (adc.float_to_uint16 (adc.raw_to_mv raw)) hraw
  refine ⟨?_, ?_, hab.1, hab.2.1, hab.2.2, hr.1, hr.2.2⟩
  · intro h
    unfold adc.check_result
    rw [if_pos]
    rcases h with h | h
    · exact Or.inl h
    · exact Or.inr ((hcast (by omega)).2 h)
  · intro h
    unfold adc.check_result
    rw [if_neg]
    intro h2
    apply h
    rcases h2 with h2 | h2
    · exact Or.inl h2
    · rcases lt_or_le result 0 with hneg | hnn
      · exact Or.inl hneg
      · exact Or.inr ((hcast hnn).1 h2)

/-- Concrete instance: with 16-bit `size_t`, two 32-bit values give a text of
22 characters and the sentinel; the reading 1023 gives its complete text; a
negative result gives the sentinel. -/
theorem adc.to_string_sentinel_iff_witness :
    (-1 : Int) < 2 ^ 16 ∧ (adc.format_u_u 4294967295 4294967295).length < 2 ^ 16 ∧
    (adc.format_u_u 1023 (adc.float_to_uint16 (adc.raw_to_mv 1023))).length < 2 ^ 16 ∧
    adc.check_result 16 ("", -1) = "Err, Err" ∧
    adc.format_reading 16 4294967295 4294967295 = "Err, Err" ∧
    ¬ adc.to_string 16 1023 = "Err, Err" :=
  have hraw : (adc.format_u_u 1023 (adc.float_to_uint16 (adc.raw_to_mv 1023))).length
      < 2 ^ 16 := by rw [adc.mv16_1023]; decide
  have hsmall : ¬ 16 ≤ (adc.format_u_u 1023
      (adc.float_to_uint16 (adc.raw_to_mv 1023))).length := by rw [adc.mv16_1023]; decide
  have h := adc.to_string_sentinel_iff 16 4294967295 4294967295 1023 "" (-1)
    (by decide) (by decide) hraw
  ⟨by decide, by decide, hraw, h.1 (Or.inl (by decide)), h.2.2.1.2 (by decide),
    fun he => hsmall (h.2.2.2.2.2.1.1 he)⟩

/-- Claim C17: under the fixed 10-bit domain, every raw reading in `[0, 1023]`,
the formatted text has at most 10 characters (at most 4 digits, 2 separator
characters, at most 4 digits), fewer than the 16 bytes of the buffer, so
`to_string` returns that text and never the sentinel `"Err, Err"`. -/
theorem adc.to_string_fits_10bit (w raw : Nat) (hraw : raw ≤ 1023) :
    (adc.fmt_u raw).length ≤ 4 ∧
    adc.float_to_uint16 (adc.raw_to_mv raw) ≤ 5000 ∧
    (adc.fmt_u (adc.float_to_uint16 (adc.raw_to_mv raw))).length ≤ 4 ∧
    (adc.format_u_u raw (adc.float_to_uint16 (adc.raw_to_mv raw))).length ≤ 10 ∧
    10 < adc.buffer_size ∧
    adc.to_string w raw = adc.format_u_u raw (adc.float_to_uint16 (adc.raw_to_mv raw)) ∧
    adc.to_string w raw ≠ "Err, Err" := by
  have hlen := adc.format_length_10bit raw hraw
  have hmv : adc.float_to_uint16 (adc.raw_to_mv raw) ≤ 5000 :=
    adc.float_to_uint16_le (adc.raw_to_mv_nonneg raw)
      (by exact_mod_cast adc.raw_to_mv_le_5000 hraw) (by decide)
  have hfit : adc.to_string w raw
      = adc.format_u_u raw (adc.float_to_uint16 (adc.raw_to_mv raw)) :=
    adc.format_reading_of_fits w _ _ (by omega)
  refine ⟨hlen.1, hmv, hlen.2.1, hlen.2.2, by decide, hfit, ?_⟩
  rw [hfit]
  exact adc.format_u_u_ne_sentinel _ _

/-- Concrete instance: the largest 10-bit reading, with 16-bit `size_t`. -/
theorem adc.to_string_fits_10bit_witness :
    (1023 : Nat) ≤ 1023 ∧ adc.to_string 16 1023 ≠ "Err, Err" ∧
    (adc.format_u_u 1023 (adc.float_to_uint16 (adc.raw_to_mv 1023))).length ≤ 10 :=
  have h := adc.to_string_fits_10bit 16 1023 (by decide)
  ⟨by decide, h.2.2.2.2.2.2, h.2.2.2.1⟩

/-- Claim C19: for every raw value in the 10-bit range `[0, 1023]`,
`raw_to_mv(raw)` lies between 0 and 5000 millivolts, and `raw_to_mv` is
non-decreasing in `raw` on that range. -/
theorem adc.raw_to_mv_range (raw a b : Nat) (hraw : raw ≤ 1023) (hab : a ≤ b)
    (_hb : b ≤ 1023) :
    0 ≤ adc.raw_to_mv raw ∧ adc.raw_to_mv raw ≤ 5000 ∧
    adc.raw_to_mv a ≤ adc.raw_to_mv b :=
  ⟨adc.raw_to_mv_nonneg raw, adc.raw_to_mv_le_5000 hraw, adc.raw_to_mv_mono hab⟩

/-- Concrete instance: the readings 0 and 1023 give 0 and 5000 millivolts, in
that order. -/
theorem adc.raw_to_mv_range_witness :
    (1023 : Nat) ≤ 1023 ∧ (0 : Nat) ≤ 1023 ∧
    0 ≤ adc.raw_to_mv 1023 ∧ adc.raw_to_mv 1023 ≤ 5000 ∧
    adc.raw_to_mv 0 ≤ adc.raw_to_mv 1023 :=
  ⟨by decide, by decide, adc.raw_to_mv_range 1023 0 1023 (by decide) (by decide) (by decide)⟩

theorem size_t_cast_sub_wrap (w a b : Nat) (hab : a < b) (hb : b < 2 ^ w) :
    size_t_cast w ((a : Int) - b) = 2 ^ w - (b - a) := by
  unfold size_t_cast
  have hcast : ((2 : Int) ^ w) = ((2 ^ w : Nat) : Int) := by push_cast; rfl
  have h1 : ((a : Int) - b) % 2 ^ w = (a : Int) - b + ((2 ^ w : Nat) : Int) := by
    rw [← Int.add_emod_self, hcast]
    apply Int.emod_eq_of_lt <;> omega
  rw [h1]
  omega

theorem span_eq_of (s t : span) (hd : s.data = t.data) (hs : s.size = t.size) : s = t := by
  cases s
  cases t
  simp only [span.data, span.size] at hd hs
  rw [hd, hs]

theorem subspan_data (w : Nat) (v : span) (offset count : Nat) :
    (v.subspan w offset count).data = v.ptr_ + (offset : Int) := rfl

theorem subspan_default_data (w : Nat) (v : span) (offset : Nat) :
    (v.subspan_default w offset).data = v.ptr_ + (offset : Int) := rfl

/-! ## Subviews: wrap-around, containment and algebra -/

/-- Claim C21: `subspan` with the count omitted does not guard the subtraction.
For every view and every `size_t` offset greater than `size()`, the view
`subspan(offset)` has size `(size() - offset) mod 2 ^ w`, that is
`2 ^ w - (offset - size())`, which is non-zero and greater than `size()`; no
error is raised (the function is total) and the data pointer is
`data() + offset`. -/
theorem span.subspan_default_wraps (w : Nat) (v : span) (offset : Nat)
    (hv : v.size < 2 ^ w) (hgt : v.size < offset) (ho : offset < 2 ^ w) :
    (v.subspan_default w offset).size = 2 ^ w - (offset - v.size) ∧
    ((v.subspan_default w offset).size : Int) = ((v.size : Int) - offset) % 2 ^ w ∧
    (v.subspan_default w offset).size ≠ 0 ∧
    v.size < (v.subspan_default w offset).size ∧
    (v.subspan_default w offset).size < 2 ^ w ∧
    (v.subspan_default w offset).data = v.data + offset := by
  have hs : (v.subspan_default w offset).size = size_t_cast w ((v.size_ : Int) - offset) := by
    simp [span.subspan_default, span.subspan, span.ctor_ptr_count, span.size]
  have hwrap := size_t_cast_sub_wrap w v.size_ offset hgt ho
  have hmod : ((size_t_cast w ((v.size_ : Int) - offset) : Nat) : Int)
      = ((v.size_ : Int) - offset) % 2 ^ w := by
    unfold size_t_cast
    exact Int.toNat_of_nonneg (Int.emod_nonneg _ (by positivity))
  simp only [span.size] at hv hgt hs ⊢
  refine ⟨by rw [hs, hwrap], by rw [hs, hmod], ?_, ?_, ?_, rfl⟩ <;>
    rw [hs, hwrap] <;> omega

/-- Concrete instance: with 16-bit `size_t`, `subspan(6)` of a view of 5
elements has 65535 elements. -/
theorem span.subspan_default_wraps_witness :
    (span.mk 100 5).size < 2 ^ 16 ∧ (span.mk 100 5).size < 6 ∧ 6 < 2 ^ 16 ∧
    ((span.mk 100 5).subspan_default 16 6).size = 2 ^ 16 - (6 - (span.mk 100 5).size) ∧
    ((span.mk 100 5).subspan_default 16 6).size = 65535 :=
  have h := span.subspan_default_wraps 16 (span.mk 100 5) 6 (by decide) (by decide) (by decide)
  ⟨by decide, by decide, by decide, h.1, h.1.trans (by decide)⟩

/-- Claim C22: subviews stay inside their parent. For every view and valid
arguments (`n ≤ size()` for `first` and `last`; `offset ≤ size()` and
`count ≤ size() - offset`, or the count omitted, for `subspan`) the resulting
view `s` satisfies `v.data() ≤ s.data()` and
`s.data() + s.size() ≤ v.data() + v.size()`, and every index valid for `s`
denotes the element of `v` at a valid index. -/
theorem span.subviews_inside (w : Nat) (v : span) (n offset count i : Nat)
    (hv : v.size < 2 ^ w) (hn : n ≤ v.size) (ho : offset ≤ v.size)
    (hc : count ≤ v.size - offset) :
    (v.data ≤ (v.first n).data ∧
      (v.first n).data + (v.first n).size ≤ v.data + v.size ∧
      (i < (v.first n).size → ∃ j : Nat, j < v.size ∧ (v.first n).subscript i = v.subscript j)) ∧
    (v.data ≤ (v.last n).data ∧
      (v.last n).data + (v.last n).size ≤ v.data + v.size ∧
      (i < (v.last n).size → ∃ j : Nat, j < v.size ∧ (v.last n).subscript i = v.subscript j)) ∧
    (v.data ≤ (v.subspan w offset count).data ∧
      (v.subspan w offset count).data + (v.subspan w offset count).size ≤ v.data + v.size ∧
      (i < (v.subspan w offset count).size →
        ∃ j : Nat, j < v.size ∧ (v.subspan w offset count).subscript i = v.subscript j)) ∧
    (v.data ≤ (v.subspan_default w offset).data ∧
      (v.subspan_default w offset).data + (v.subspan_default w offset).size
        ≤ v.data + v.size ∧
      (i < (v.subspan_default w offset).size →
        ∃ j : Nat, j < v.size ∧ (v.subspan_default w offset).subscript i = v.subscript j)) := by
  have hs1 := subspan_size_of_valid w v offset count hv ho hc
  have hs2 := subspan_default_size_of_valid w v offset hv ho
  have hd1 := subspan_data w v offset count
  have hd2 := subspan_default_data w v offset
  have hlast : (v.last n).data = v.ptr_ + (((v.size_ - n : Nat)) : Int) := by
    have hn2 : n ≤ v.size_ := hn
    simp only [span.last, span.ctor_ptr_count, span.data]
    rw [Nat.cast_sub hn2]
    ring
  have hfirst : (v.first n).data = v.ptr_ := rfl
  have hfs : (v.first n).size = n := rfl
  have hls : (v.last n).size = n := rfl
  have key : ∀ (s : span) (off : Nat), s.data = v.ptr_ + (off : Int) → off + s.size ≤ v.size →
      (v.data ≤ s.data ∧ s.data + s.size ≤ v.data + v.size ∧
        (i < s.size → ∃ j : Nat, j < v.size ∧ s.subscript i = v.subscript j)) := by
    intro s off hsd hsz
    have hsd2 : s.ptr_ = v.ptr_ + (off : Int) := hsd
    refine ⟨?_, ?_, ?_⟩
    · rw [hsd]
      exact le_add_of_nonneg_right (Int.natCast_nonneg off)
    · rw [hsd]
      have h2 : ((off : Int)) + (s.size : Int) ≤ (v.size : Int) := by exact_mod_cast hsz
      have h3 : v.ptr_ + (off : Int) + (s.size : Int) = v.ptr_ + ((off : Int) + (s.size : Int)) :=
        add_assoc _ _ _
      rw [h3]
      exact add_le_add_left h2 _
    · intro hi
      refine ⟨off + i, by omega, ?_⟩
      simp only [span.subscript, hsd2]
      push_cast
      ring
  simp only [span.size] at hn ho hc
  refine ⟨key _ 0 (by rw [hfirst]; simp) (by rw [hfs]; simp only [span.size]; omega),
    key _ (v.size_ - n) hlast (by rw [hls]; simp only [span.size]; omega),
    key _ offset hd1 (by rw [hs1]; simp only [span.size]; omega),
    key _ offset hd2 (by rw [hs2]; simp only [span.size]; omega)⟩

/-- Concrete instance: over 5 elements at address 100 with 16-bit `size_t`,
`last(2)` starts at 103 and index 1 of it is index 4 of the parent. -/
theorem span.subviews_inside_witness :
    (span.mk 100 5).size < 2 ^ 16 ∧ 2 ≤ (span.mk 100 5).size ∧ 1 ≤ (span.mk 100 5).size ∧
    3 ≤ (span.mk 100 5).size - 1 ∧
    (span.mk 100 5).data ≤ ((span.mk 100 5).last 2).data ∧
    ((span.mk 100 5).last 2).data + ((span.mk 100 5).last 2).size
      ≤ (span.mk 100 5).data + (span.mk 100 5).size ∧
    (∃ j : Nat, j < (span.mk 100 5).size ∧
      ((span.mk 100 5).subspan 16 1 3).subscript 1 = (span.mk 100 5).subscript j) :=
  have h := span.subviews_inside 16 (span.mk 100 5) 2 1 3 1
    (by decide) (by decide) (by decide) (by decide)
  ⟨by decide, by decide, by decide, by decide, h.2.1.1, h.2.1.2.1, h.2.2.1.2.2 (by decide)⟩

/-- Claim C23: `subspan` composes additively. For every view and all `a`, `b`
with `a + b ≤ size()`, the view `subspan(a).subspan(b)` has the address and
count of `subspan(a + b)`; and `subspan(0)`, `first(size())` and
`last(size())` each have the address and count of the view itself. -/
theorem span.subspan_compose (w : Nat) (v : span) (a b : Nat)
    (hv : v.size < 2 ^ w) (hab : a + b ≤ v.size) :
    (v.subspan_default w a).subspan_default w b = v.subspan_default w (a + b) ∧
    ((v.subspan_default w a).subspan_default w b).data = v.data + ((a + b : Nat) : Int) ∧
    ((v.subspan_default w a).subspan_default w b).size = v.size - (a + b) ∧
    v.subspan_default w 0 = v ∧
    v.first v.size = v ∧
    v.last v.size = v := by
  have hv2 : v.size_ < 2 ^ w := hv
  have hab2 : a + b ≤ v.size_ := hab
  have hsa := subspan_default_size_of_valid w v a hv (by simp only [span.size]; omega)
  have hsab := subspan_default_size_of_valid w v (a + b) hv hab
  have hs0 := subspan_default_size_of_valid w v 0 hv (Nat.zero_le _)
  have hsa2 : (v.subspan_default w a).size_ = v.size_ - a := hsa
  have hsb := subspan_default_size_of_valid w (v.subspan_default w a) b
    (by simp only [span.size]; omega) (by simp only [span.size]; omega)
  have hda : (v.subspan_default w a).ptr_ = v.ptr_ + (a : Int) := rfl
  have hd : ((v.subspan_default w a).subspan_default w b).data
      = v.data + ((a + b : Nat) : Int) := by
    rw [subspan_default_data, hda]
    simp only [span.data]
    push_cast
    ring
  have hsz : ((v.subspan_default w a).subspan_default w b).size = v.size - (a + b) := by
    rw [hsb, hsa]
    omega
  refine ⟨?_, hd, hsz, ?_, ?_, ?_⟩
  · apply span_eq_of
    · rw [hd, subspan_default_data]
      rfl
    · rw [hsz, hsab]
  · apply span_eq_of
    · rw [subspan_default_data]
      simp only [span.data]
      rw [Nat.cast_zero]
      exact add_zero _
    · rw [hs0]
      rfl
  · apply span_eq_of <;> rfl
  · apply span_eq_of
    · simp only [span.last, span.ctor_ptr_count, span.data, span.size]
      ring
    · rfl

/-- Concrete instance: over 5 elements at address 100 with 16-bit `size_t`,
`subspan(1).subspan(2)` is `subspan(3)`, the 2 elements at address 103. -/
theorem span.subspan_compose_witness :
    (span.mk 100 5).size < 2 ^ 16 ∧ 1 + 2 ≤ (span.mk 100 5).size ∧
    ((span.mk 100 5).subspan_default 16 1).subspan_default 16 2
      = (span.mk 100 5).subspan_default 16 (1 + 2) ∧
    ((span.mk 100 5).subspan_default 16 1).subspan_default 16 2 = span.mk 103 2 :=
  have h := span.subspan_compose 16 (span.mk 100 5) 1 2 (by decide) (by decide)
  ⟨by decide, by decide, h.1, by decide⟩

/-- Claim C24: `first` and `last` are special cases of `subspan`. For every view
and every `n ≤ size()`, `first(n)` has the address and count of
`subspan(0, n)`, and `last(n)` has the address and count of
`subspan(size() - n, n)` and of `subspan(size() - n)`. -/
theorem span.first_last_as_subspan (w : Nat) (v : span) (n : Nat)
    (hv : v.size < 2 ^ w) (hn : n ≤ v.size) :
    v.first n = v.subspan w 0 n ∧
    v.last n = v.subspan w (v.size - n) n ∧
    v.last n = v.subspan_default w (v.size - n) ∧
    (v.first n).data = (v.subspan w 0 n).data ∧
    (v.first n).size = (v.subspan w 0 n).size ∧
    (v.last n).data = (v.subspan w (v.size - n) n).data ∧
    (v.last n).size = (v.subspan w (v.size - n) n).size ∧
    (v.last n).data = (v.subspan_default w (v.size - n)).data ∧
    (v.last n).size = (v.subspan_default w (v.size - n)).size := by
  have hv2 : v.size_ < 2 ^ w := hv
  have hn2 : n ≤ v.size_ := hn
  have hs1 := subspan_size_of_valid w v 0 n hv (Nat.zero_le _) (by simp only [span.size]; omega)
  have hs2 := subspan_size_of_valid w v (v.size - n) n hv
    (by simp only [span.size]; omega) (by simp only [span.size]; omega)
  have hs3 := subspan_default_size_of_valid w v (v.size - n) hv
    (by simp only [span.size]; omega)
  have hlast : (v.last n).data = v.ptr_ + (((v.size - n : Nat)) : Int) := by
    simp only [span.last, span.ctor_ptr_count, span.data, span.size]
    rw [Nat.cast_sub hn2]
    ring
  have hfd : (v.first n).data = (v.subspan w 0 n).data := by
    rw [subspan_data]
    simp only [span.first, span.ctor_ptr_count, span.data]
    rw [Nat.cast_zero]
    exact (add_zero _).symm
  have hfs : (v.first n).size = (v.subspan w 0 n).size := by rw [hs1]; rfl
  have hld : (v.last n).data = (v.subspan w (v.size - n) n).data := by
    rw [subspan_data, hlast]
  have hls : (v.last n).size = (v.subspan w (v.size - n) n).size := by rw [hs2]; rfl
  have hld2 : (v.last n).data = (v.subspan_default w (v.size - n)).data := by
    rw [subspan_default_data, hlast]
  have hls2 : (v.last n).size = (v.subspan_default w (v.size - n)).size := by
    rw [hs3]
    simp only [span.last, span.ctor_ptr_count, span.size]
    omega
  exact ⟨span_eq_of _ _ hfd hfs, span_eq_of _ _ hld hls, span_eq_of _ _ hld2 hls2,
    hfd, hfs, hld, hls, hld2, hls2⟩

/-- Concrete instance: over 5 elements at address 100 with 16-bit `size_t`,
`first(2)` is `subspan(0, 2)` and `last(2)` is `subspan(3, 2)` and `subspan(3)`. -/
theorem span.first_last_as_subspan_witness :
    (span.mk 100 5).size < 2 ^ 16 ∧ 2 ≤ (span.mk 100 5).size ∧
    (span.mk 100 5).first 2 = (span.mk 100 5).subspan 16 0 2 ∧
    (span.mk 100 5).last 2 = (span.mk 100 5).subspan 16 ((span.mk 100 5).size - 2) 2 ∧
    (span.mk 100 5).last 2 = (span.mk 100 5).subspan_default 16 ((span.mk 100 5).size - 2) :=
  have h := span.first_last_as_subspan 16 (span.mk 100 5) 2 (by decide) (by decide)
  ⟨by decide, by decide, h.1, h.2.1, h.2.2.1⟩

end core
